import Mathlib

/-
  Verification of the CUDA backpropagation core (src/boosting/backprop_cuda.cu)
  against its natural-language specification.

  Shallow embedding conventions:
  * device floats/doubles are modelled as exact rationals (the claims under
    study are algebraic, not rounding claims);
  * the device tanh library routine (external to the file) is an explicit
    function parameter;
  * 32-bit unsigned arithmetic is modelled on naturals with explicit
    reduction modulo 2^32 where the source relies on wraparound;
  * the FixedPointAccum32 atomic add (declared in fixed_point_accum.h and
    arch/cuda/atomic.h, outside this repository snapshot) is modelled from
    the spec as integer addition of a quantized increment.
-/

namespace BackpropCuda

/-- Activation selector of the device switches (backprop_cuda.cu:44, :59):
the two recognised codes ML.ACT_TANH and ML.ACT_IDENTITY, plus one
constructor standing for every other integer code, which both switches send
to their default branch. -/
inductive Activation where
  | actTanh
  | actIdentity
  | actOther
deriving DecidableEq

/-- Device function transform (backprop_cuda.cu:42-54): apply the activation
function to a pre-activation input.  tanhFn is the device tanh routine. -/
def transform (tanhFn : ℚ → ℚ) (input : ℚ) (activation : Activation) : ℚ :=
  match activation with
  | .actTanh => tanhFn input
  | .actIdentity => input
  | .actOther => 0

/-- Device function delta (backprop_cuda.cu:57-66): derivative times error. -/
def delta (output error : ℚ) (activation : Activation) : ℚ :=
  match activation with
  | .actTanh => (1 - output * output) * error
  | .actIdentity => output * error
  | .actOther => 0

/-- Modelled from the spec (section 4.2 forward contract): tanh maps to the
hyperbolic tangent, identity to the input itself, and any other kind is an
error (unsupported activation) rather than an ordinary value.  Used only to
compare the spec's words against the source's transform. -/
def transformSpec (tanhFn : ℚ → ℚ) (input : ℚ) (activation : Activation) : Option ℚ :=
  match activation with
  | .actTanh => some (tanhFn input)
  | .actIdentity => some input
  | .actOther => none

/-- min_threads (backprop_cuda.cu:200). -/
def min_threads (nt no : ℕ) : ℕ := nt / no

/-- left_over (backprop_cuda.cu:201). -/
def left_over (nt no : ℕ) : ℕ := nt % no

/-- which output value thread tid works on, o = tid % no (backprop_cuda.cu:204). -/
def assignedOutput (tid no : ℕ) : ℕ := tid % no

/-- which thread within that output, idx = tid / no (backprop_cuda.cu:205). -/
def subLaneIdx (tid no : ℕ) : ℕ := tid / no

/-- o_threads = min_threads + (o < left_over) (backprop_cuda.cu:206). -/
def o_threads (nt no tid : ℕ) : ℕ :=
  min_threads nt no + (if assignedOutput tid no < left_over nt no then 1 else 0)

/-- Forward dot-product loop of one thread (backprop_cuda.cu:213-216):
starting at index i and stepping by step = o_threads, accumulate
weight[i] * inval[i] while i < ni.  The 0 < step conjunct in the guard only
excludes the non-terminating step-0 loop, which no live thread runs. -/
def fpropAccum (weight inval : ℕ → ℚ) (ni step : ℕ) (i : ℕ) : ℚ :=
  if _h : i < ni ∧ 0 < step then
    weight i * inval i + fpropAccum weight inval ni step (i + step)
  else 0
termination_by ni - i
decreasing_by omega

/-- Error-initialisation phase (backprop_cuda.cu:271-282): every thread
tid < ss saves last_output[x] = scratch[x*ss+tid] and, after the barrier,
overwrites that same cell with
(tid < no ? (labels[x] == tid ? fire : inhibit) - last_output : 0).
Flat scratch addresses p decompose as x = p / ss, tid = p % ss because the
thread-group width equals the scratch stride ss = max_width
(backprop_cuda.cu:1442, :153). -/
def bpropErrorInit (N ss no : ℕ) (labels : ℕ → ℕ) (fire inhibit : ℚ)
    (scratch : ℕ → ℚ) : ℕ → ℚ :=
  fun p =>
    if p / ss < N then
      if p % ss < no then
        (if labels (p / ss) = p % ss then fire else inhibit) - scratch p
      else 0
    else scratch p

/-- Per-example factor k[x] = example_weights[x] * learning_rate
(backprop_cuda.cu:358-359). -/
def exampleK (example_weights : ℕ → ℚ) (learning_rate : ℚ) (x : ℕ) : ℚ :=
  example_weights x * learning_rate

/-- total_update for one input index (backprop_cuda.cu:377-386): the sum over
the batch of prev * k[x] * d[x], where prevAt x is the presynaptic value the
loop reads for example x (the input or the previous layer's logged output). -/
def total_update (N : ℕ) (prevAt k d : ℕ → ℚ) : ℚ :=
  ∑ x ∈ Finset.range N, prevAt x * k x * d x

/-- bias total_update (backprop_cuda.cu:392-393). -/
def biasTotalUpdate (N : ℕ) (k d : ℕ → ℚ) : ℚ :=
  ∑ x ∈ Finset.range N, k x * d x

/-- thread_stride (backprop_cuda.cu:367-368). -/
def thread_stride (ni num_threads_in_block : ℕ) : ℕ :=
  if ni / num_threads_in_block = 0 then 1 else ni / num_threads_in_block

/-- start_at = (block_num * thread_stride) % ni (backprop_cuda.cu:370). -/
def start_at (block_num ni num_threads_in_block : ℕ) : ℕ :=
  (block_num * thread_stride ni num_threads_in_block) % ni

/-- real index i = i_ - (i_ >= ni) * ni of the staggered loop
(backprop_cuda.cu:375). -/
def realIndex (iRaw ni : ℕ) : ℕ := iRaw - (if ni ≤ iRaw then 1 else 0) * ni

/-- Order in which the staggered update loop (backprop_cuda.cu:372-389)
visits input indices: iteration j handles i_ = startAt + j. -/
def visitOrder (startAt ni : ℕ) : List ℕ :=
  (List.range ni).map (fun j => realIndex (startAt + j) ni)

/-- One atomic fixed-point add.  Modelled from the spec: the FixedPointAccum32
atomic_add (fixed_point_accum.h, arch/cuda/atomic.h are outside this
snapshot) adds a quantized increment to an integer accumulator word; quant
is the quantization map. -/
def atomicAddQ (quant : ℚ → ℤ) (acc : ℕ → ℤ) (pos : ℕ) (v : ℚ) : ℕ → ℤ :=
  fun p => if p = pos then acc pos + quant v else acc p

/-- Effect of one thread's staggered weight-update loop
(backprop_cuda.cu:372-389) on the layer's weight-gradient accumulator:
iteration j adds total_update(i) at flat position i * w_stride + tid, with
i = realIndex (startAt + j). -/
def updateLoop (quant : ℚ → ℤ) (w_stride tid ni startAt : ℕ) (tu : ℕ → ℚ)
    (acc : ℕ → ℤ) : ℕ → ℤ :=
  (List.range ni).foldl
    (fun a j =>
      atomicAddQ quant a (realIndex (startAt + j) ni * w_stride + tid)
        (tu (realIndex (startAt + j) ni)))
    acc

/-- 2^32, the modulus of the kernel's unsigned loop arithmetic. -/
def two32 : ℕ := 4294967296

/-- 32-bit unsigned subtraction a - b for a, b < 2^32. -/
def usub (a b : ℕ) : ℕ := (a + (two32 - b % two32)) % two32

/-- example_num_base = block_num * examples_per_block (backprop_cuda.cu:1152). -/
def example_num_base (block_num examples_per_block : ℕ) : ℕ :=
  block_num * examples_per_block

/-- last_example = min(total_num_examples, example_num_base + examples_per_block)
(backprop_cuda.cu:1153). -/
def last_example (total_num_examples block_num examples_per_block : ℕ) : ℕ :=
  min total_num_examples
    (example_num_base block_num examples_per_block + examples_per_block)

/-- Guard of the batch-8 dispatch loop, example_num < last_example - 7 in
unsigned arithmetic (backprop_cuda.cu:1274). -/
def batch8_active (example_num lastEx : ℕ) : Bool :=
  example_num < usub lastEx 7

/-- Guard of the batch-4 dispatch loop (backprop_cuda.cu:1290). -/
def batch4_active (example_num lastEx : ℕ) : Bool :=
  example_num < usub lastEx 3

/-- Guard of the batch-1 dispatch loop (backprop_cuda.cu:1307). -/
def batch1_active (example_num lastEx : ℕ) : Bool :=
  example_num < lastEx

/-- Batch size of the first dispatch a thread group makes for its chunk
(backprop_cuda.cu:1274-1323); 0 when the chunk is empty. -/
def firstDispatchBatch (base lastEx : ℕ) : ℕ :=
  if batch8_active base lastEx then 8
  else if batch4_active base lastEx then 4
  else if batch1_active base lastEx then 1
  else 0

/-- sizeof(float) on the device. -/
def sizeof_float : ℕ := 4

/-- sizeof(double) on the device. -/
def sizeof_double : ℕ := 8

/-- shared_mem_stride = max_width * sizeof(float) (backprop_cuda.cu:1445). -/
def shared_mem_stride (max_width : ℕ) : ℕ := max_width * sizeof_float

/-- shared_mem_size = shared_mem_stride * 4 + 4 * sizeof(double), the bytes of
dynamic shared memory the Plan requests per thread group
(backprop_cuda.cu:1449-1451), passed at the launch (backprop_cuda.cu:1557). -/
def shared_mem_size (max_width : ℕ) : ℕ :=
  shared_mem_stride max_width * 4 + 4 * sizeof_double

/-- Number of float slots the shared-memory allocation provides for scratch. -/
def scratchFloatCapacity (max_width : ℕ) : ℕ :=
  shared_mem_size max_width / sizeof_float

/-- Scratch slots the batched routine touches: indices x * max_width + tid
with x < N and tid < max_width (backprop_cuda.cu:149-157), so N * max_width
elements. -/
def scratchElemsNeeded (N max_width : ℕ) : ℕ := N * max_width

/-- Size of the layer-outputs log the Context allocates,
total_neurons * grid_size * 4 elements (backprop_cuda.cu:1549). -/
def layer_outputs_alloc (total_neurons grid_size : ℕ) : ℕ :=
  total_neurons * grid_size * 4

/-- Per-block base offset into the layer-outputs log,
layer_outputs += block_num * total_neurons (backprop_cuda.cu:1150). -/
def blockLayerOutputsBase (block_num total_neurons : ℕ) : ℕ :=
  block_num * total_neurons

/-- Flat address of a layer-output access
this_layer_outputs[x * total_neurons + tid], where this_layer_outputs sits
layerOffset entries past the block's base (backprop_cuda.cu:237-244,
:302-310). -/
def layerOutputAddr (block_num total_neurons layerOffset x tid : ℕ) : ℕ :=
  blockLayerOutputsBase block_num total_neurons + layerOffset + x * total_neurons + tid

/-- The slice of the layer-outputs log a thread group running batch size N
works in: offset block_num * total_neurons, extent N * total_neurons. -/
def blockSlice (block_num total_neurons N : ℕ) : Finset ℕ :=
  Finset.Ico (blockLayerOutputsBase block_num total_neurons)
    (blockLayerOutputsBase block_num total_neurons + N * total_neurons)

/-- Backprop.Context.synchronize (backprop_cuda.cu:1584-1629).  devErr is what
cudaThreadSynchronize reported (none = cudaSuccess, some msg = the runtime's
diagnostic text).  The first component is the failure the call raises, and
the pair holds the caller's weight/bias output buffers after the call: on a
device error the exception is thrown before any copy, so both buffers are
returned unchanged; on success layer l < num_layers receives its
architecture[l] * w_strides[l] weight accumulator words (respectively
architecture[l+1] bias words), each converted by conv.  Modelled from the
spec: conv is the FixedPointAccum32-to-float conversion (fixed_point_accum.h
is outside this snapshot), kept abstract. -/
def synchronize (devErr : Option String) (num_layers : ℕ)
    (architecture w_strides : ℕ → ℕ) (conv : ℤ → ℚ)
    (dW dB : ℕ → ℕ → ℤ) (hostW hostB : ℕ → ℕ → ℚ) :
    Option String × ((ℕ → ℕ → ℚ) × (ℕ → ℕ → ℚ)) :=
  match devErr with
  | some msg => (some msg, (hostW, hostB))
  | none =>
      (none,
       (fun l i =>
          if l < num_layers ∧ i < architecture l * w_strides l then conv (dW l i)
          else hostW l i,
        fun l i =>
          if l < num_layers ∧ i < architecture (l + 1) then conv (dB l i)
          else hostB l i))

/-- C3 counterexample: the claim that an unsupported activation kind is an
error rather than an ordinary value is false.  The source's transform is
total: on the default branch it returns the ordinary value 0.0, so it does
not refine the spec's Option-valued forward contract. -/
theorem transform_unsupported_not_error :
    ¬ ∀ (tanhFn : ℚ → ℚ) (x : ℚ) (a : Activation),
        transformSpec tanhFn x a = some (transform tanhFn x a) := by
  intro hAll
  have h0 := hAll id 0 .actOther
  simp [transformSpec, transform] at h0

/-- C3 amended: transform returns tanhFn(x) for the tanh kind, x itself for
the identity kind, and the ordinary value 0.0 (no error) for every other
activation kind. -/
theorem transform_forward_amended (tanhFn : ℚ → ℚ) (x : ℚ) :
    transform tanhFn x .actTanh = tanhFn x
    ∧ transform tanhFn x .actIdentity = x
    ∧ transform tanhFn x .actOther = 0 :=
  ⟨rfl, rfl, rfl⟩

/-- C5: delta returns (1 - output^2) * error for the tanh kind — hence error
at output 0 and zero at output plus or minus 1 — and output * error for the
identity kind. -/
theorem delta_backward_spec (output error : ℚ) :
    delta output error .actTanh = (1 - output * output) * error
    ∧ delta output error .actIdentity = output * error
    ∧ delta 0 error .actTanh = error
    ∧ delta 1 error .actTanh = 0
    ∧ delta (-1) error .actTanh = 0 := by
  refine ⟨rfl, rfl, ?_, ?_, ?_⟩ <;> simp [delta]

/-- C1 failing input: with the Context's hard-coded examples_per_block = 4
(backprop_cuda.cu:1544) and 4 training examples, block 0's chunk is [0, 4),
so fewer than 8 examples remain and the claim requires a first dispatch of
batch size 4.  But last_example = 4 makes the unsigned guard
example_num < last_example - 7 wrap around 2^32, so the kernel's first
dispatch is a batch of 8 starting at example 0, which reaches example 7,
outside both the chunk and the training set. -/
theorem dispatch_batch8_guard_underflows :
    last_example 4 0 4 = 4
    ∧ example_num_base 0 4 = 0
    ∧ firstDispatchBatch (example_num_base 0 4) (last_example 4 0 4) = 8
    ∧ last_example 4 0 4 < example_num_base 0 4 + 8 := by
  decide

/-- C2 failing input: for max_width = 3 the Plan requests
shared_mem_size = 80 bytes, i.e. 20 float slots of scratch, while a
dispatched batch of N = 8 needs 8 * 3 = 24 slots; the access
x = 7, tid = 2 lands at scratch index 23, beyond the allocation.  So the
shared scratch region is not at least widest-layer-width * N elements for
every dispatched batch size. -/
theorem shared_mem_underallocated_for_batch8 :
    shared_mem_size 3 = 80
    ∧ scratchFloatCapacity 3 = 20
    ∧ scratchElemsNeeded 8 3 = 24
    ∧ scratchFloatCapacity 3 < scratchElemsNeeded 8 3
    ∧ scratchFloatCapacity 3 ≤ (8 - 1) * 3 + 2 := by
  decide

/-- C10 failing input: with total_neurons = 5, successive blocks' bases are
only total_neurons apart, while a block running batch size N uses
N * total_neurons entries.  Block 0's write for example x = 1 at the first
layer lands on address 5, the very base of block 1's slice, so the batch-4
slices of blocks 0 and 1 overlap; and for batch size 8 with grid_size = 2
block 1 reaches address 44 although only 40 entries were allocated. -/
theorem layer_outputs_slices_overlap :
    layerOutputAddr 0 5 0 1 0 = 5
    ∧ blockLayerOutputsBase 1 5 = 5
    ∧ layerOutputAddr 0 5 0 1 0 ∈ blockSlice 1 5 4
    ∧ (blockSlice 0 5 4 ∩ blockSlice 1 5 4).Nonempty
    ∧ layer_outputs_alloc 5 2 = 40
    ∧ layerOutputAddr 1 5 0 7 4 = 44
    ∧ layer_outputs_alloc 5 2 ≤ layerOutputAddr 1 5 0 7 4 := by
  decide

/-- C7: after the forward pass, the error deposited in scratch at
(example x, thread tid) is (fire if labels[x] = tid else inhibit) minus the
observed top-layer output held in scratch when tid is below the final
layer's width no, and 0 for every tid at or above no. -/
theorem bprop_error_init_spec (N ss no : ℕ) (labels : ℕ → ℕ) (fire inhibit : ℚ)
    (scratch : ℕ → ℚ) (x tid : ℕ) (hx : x < N) (htid : tid < ss) :
    bpropErrorInit N ss no labels fire inhibit scratch (x * ss + tid)
      = if tid < no then
          (if labels x = tid then fire else inhibit) - scratch (x * ss + tid)
        else 0 := by
  have hss : 0 < ss := lt_of_le_of_lt (Nat.zero_le _) htid
  have hdiv : (x * ss + tid) / ss = x := by
    rw [Nat.mul_comm, Nat.mul_add_div hss, Nat.div_eq_of_lt htid, Nat.add_zero]
  have hmod : (x * ss + tid) % ss = tid := by
    rw [Nat.mul_comm, Nat.mul_add_mod, Nat.mod_eq_of_lt htid]
  unfold bpropErrorInit
  rw [hdiv, hmod, if_pos hx]

/-- C7 witness: concrete evaluation of the error-init phase for a batch of
one example, scratch stride 2, one output neuron, label 0 matching tid 0. -/
theorem bprop_error_init_spec_witness :
    bpropErrorInit 1 2 1 (fun _ => 0) 1 (-1) (fun _ => 3) 0 = -2 := by
  have h := bprop_error_init_spec 1 2 1 (fun _ => 0) 1 (-1) (fun _ => 3) 0 0
    (by decide) (by decide)
  norm_num at h
  simpa using h

/-- C8: if example x0's weight is zero or the learning rate is zero, then the
summand example x0 contributes to the weight total_update and to the bias
total_update is exactly zero, and both totals equal the sums over the other
examples of the batch alone. -/
theorem zero_weight_or_rate_zero_update (N x0 : ℕ) (ew : ℕ → ℚ) (lr : ℚ)
    (prevAt d : ℕ → ℚ) (hx0 : x0 < N) (hzero : ew x0 = 0 ∨ lr = 0) :
    prevAt x0 * exampleK ew lr x0 * d x0 = 0
    ∧ exampleK ew lr x0 * d x0 = 0
    ∧ total_update N prevAt (exampleK ew lr) d
        = ∑ x ∈ (Finset.range N).erase x0, prevAt x * exampleK ew lr x * d x
    ∧ biasTotalUpdate N (exampleK ew lr) d
        = ∑ x ∈ (Finset.range N).erase x0, exampleK ew lr x * d x := by
  have hk : exampleK ew lr x0 = 0 := by
    rcases hzero with h | h <;> simp [exampleK, h]
  have hw : prevAt x0 * exampleK ew lr x0 * d x0 = 0 := by rw [hk]; ring
  have hb : exampleK ew lr x0 * d x0 = 0 := by rw [hk]; ring
  have hmem : x0 ∈ Finset.range N := Finset.mem_range.mpr hx0
  refine ⟨hw, hb, ?_, ?_⟩
  · rw [total_update, ← Finset.sum_erase_add _ _ hmem, hw, add_zero]
  · rw [biasTotalUpdate, ← Finset.sum_erase_add _ _ hmem, hb, add_zero]

/-- C8 witness: a batch of one example with example weight 0 contributes
exactly zero to the weight and bias accumulators. -/
theorem zero_weight_or_rate_zero_update_witness :
    (2 : ℚ) * exampleK (fun _ => 0) 1 0 * 3 = 0
    ∧ exampleK (fun _ => (0 : ℚ)) 1 0 * 3 = 0
    ∧ total_update 1 (fun _ => 2) (exampleK (fun _ => 0) 1) (fun _ => 3)
        = ∑ x ∈ (Finset.range 1).erase 0, 2 * exampleK (fun _ => (0 : ℚ)) 1 x * 3
    ∧ biasTotalUpdate 1 (exampleK (fun _ => 0) 1) (fun _ => 3)
        = ∑ x ∈ (Finset.range 1).erase 0, exampleK (fun _ => (0 : ℚ)) 1 x * 3 :=
  zero_weight_or_rate_zero_update 1 0 (fun _ => 0) 1 (fun _ => 2) (fun _ => 3)
    (by decide) (Or.inl rfl)

/-- C9: synchronize raises the runtime's own diagnostic text and leaves both
caller buffers untouched when the device reported an execution error;
otherwise it raises nothing and fills, for every layer l below num_layers,
the architecture[l] * w_strides[l] weight-gradient entries and the
architecture[l+1] bias-gradient entries with the accumulator words converted
from fixed point by conv, leaving everything outside those ranges unchanged. -/
theorem synchronize_spec (num_layers : ℕ) (arch strides : ℕ → ℕ) (conv : ℤ → ℚ)
    (dW dB : ℕ → ℕ → ℤ) (hW hB : ℕ → ℕ → ℚ) (msg : String) :
    synchronize (some msg) num_layers arch strides conv dW dB hW hB
        = (some msg, (hW, hB))
    ∧ (synchronize none num_layers arch strides conv dW dB hW hB).1 = none
    ∧ (∀ l i, l < num_layers → i < arch l * strides l →
        (synchronize none num_layers arch strides conv dW dB hW hB).2.1 l i
          = conv (dW l i))
    ∧ (∀ l i, l < num_layers → i < arch (l + 1) →
        (synchronize none num_layers arch strides conv dW dB hW hB).2.2 l i
          = conv (dB l i))
    ∧ (∀ l i, num_layers ≤ l →
        (synchronize none num_layers arch strides conv dW dB hW hB).2.1 l i
          = hW l i
        ∧ (synchronize none num_layers arch strides conv dW dB hW hB).2.2 l i
          = hB l i) := by
  refine ⟨rfl, rfl, ?_, ?_, ?_⟩
  · intro l i hl hi
    simp [synchronize, hl, hi]
  · intro l i hl hi
    simp [synchronize, hl, hi]
  · intro l i hl
    constructor <;> simp [synchronize, Nat.not_lt.mpr hl]

/-- C9 witness: one layer with a 1x1 weight matrix; an execution error
returns the diagnostic and the untouched buffers, while success copies the
converted accumulator words. -/
theorem synchronize_spec_witness :
    synchronize (some "unspecified launch failure") 1 (fun l => l + 1)
        (fun _ => 1) Int.cast (fun _ _ => 5) (fun _ _ => 7) (fun _ _ => 9)
        (fun _ _ => 9)
      = (some "unspecified launch failure", (fun _ _ => 9, fun _ _ => 9))
    ∧ (synchronize none 1 (fun l => l + 1) (fun _ => 1) Int.cast
        (fun _ _ => 5) (fun _ _ => 7) (fun _ _ => 9) (fun _ _ => 9)).2.1 0 0
      = ((5 : ℤ) : ℚ)
    ∧ (synchronize none 1 (fun l => l + 1) (fun _ => 1) Int.cast
        (fun _ _ => 5) (fun _ _ => 7) (fun _ _ => 9) (fun _ _ => 9)).2.2 0 1
      = ((7 : ℤ) : ℚ) := by
  have h := synchronize_spec 1 (fun l => l + 1) (fun _ => 1) Int.cast
    (fun _ _ => 5) (fun _ _ => 7) (fun _ _ => 9) (fun _ _ => 9)
    "unspecified launch failure"
  exact ⟨h.1, h.2.2.1 0 0 (by decide) (by decide), h.2.2.2.1 0 1 (by decide) (by decide)⟩

/-- Helper: how many of the nt threads get residue o modulo no.  This is the
arithmetic fact behind the thread-mapping load-balance count. -/
lemma card_range_filter_mod (no o : ℕ) (hno : 0 < no) (ho : o < no) (nt : ℕ) :
    ((Finset.range nt).filter (fun t => t % no = o)).card
      = nt / no + (if o < nt % no then 1 else 0) := by
  induction nt with
  | zero => simp
  | succ n ih =>
    rw [Finset.range_succ, Finset.filter_insert]
    have hdm := Nat.div_add_mod n no
    have hmodlt : n % no < no := Nat.mod_lt _ hno
    have hsucc : ((n + 1) / no = n / no + 1 ∧ (n + 1) % no = 0 ∧ n % no + 1 = no)
        ∨ ((n + 1) / no = n / no ∧ (n + 1) % no = n % no + 1) := by
      rcases Nat.lt_or_ge (n % no + 1) no with hlt | hge
      · right
        rw [Nat.div_mod_unique hno]
        constructor
        · calc n % no + 1 + no * (n / no)
              = no * (n / no) + n % no + 1 := by ring
            _ = n + 1 := by rw [hdm]
        · exact hlt
      · left
        have heq : n % no + 1 = no := le_antisymm (Nat.succ_le_of_lt hmodlt) hge
        have hpair : (n + 1) / no = n / no + 1 ∧ (n + 1) % no = 0 := by
          rw [Nat.div_mod_unique hno]
          constructor
          · calc 0 + no * (n / no + 1)
                = no * (n / no) + no := by ring
              _ = no * (n / no) + (n % no + 1) := by rw [heq]
              _ = n + 1 := by rw [← Nat.add_assoc, hdm]
          · exact hno
        exact ⟨hpair.1, hpair.2, heq⟩
    by_cases hcase : n % no = o
    · rw [if_pos hcase, Finset.card_insert_of_not_mem (by simp), ih]
      rcases hsucc with ⟨hdiv, hmod0, _⟩ | ⟨hdiv, hmods⟩
      · rw [hdiv, hmod0, hcase]
        simp
      · rw [hdiv, hmods, hcase]
        simp
    · rw [if_neg hcase, ih]
      rcases hsucc with ⟨hdiv, hmod0, heq⟩ | ⟨hdiv, hmods⟩
      · rw [hdiv, hmod0]
        have hlt : o < n % no := by omega
        simp [hlt]
      · rw [hdiv, hmods]
        by_cases hlt : o < n % no
        · have h2 : o < n % no + 1 := by omega
          simp [hlt, h2]
        · have h2 : ¬ o < n % no + 1 := by omega
          simp [hlt, h2]

/-- Helper: the set of indices the strided forward loop visits from i is
empty once ni ≤ i. -/
lemma strideSet_empty (ni step i : ℕ) (hi : ni ≤ i) :
    (Finset.range ni).filter (fun j => i ≤ j ∧ (j - i) % step = 0) = ∅ := by
  apply Finset.eq_empty_of_forall_not_mem
  intro j hj
  simp only [Finset.mem_filter, Finset.mem_range] at hj
  omega

/-- Helper: the strided forward loop accumulates exactly the sum of
weight[j] * inval[j] over the indices i, i + step, i + 2 step, ... below ni. -/
lemma fpropAccum_eq_sum (weight inval : ℕ → ℚ) (ni step : ℕ) (hstep : 0 < step) :
    ∀ fuel i, ni ≤ i + fuel →
      fpropAccum weight inval ni step i
        = ∑ j ∈ (Finset.range ni).filter (fun j => i ≤ j ∧ (j - i) % step = 0),
            weight j * inval j := by
  intro fuel
  induction fuel with
  | zero =>
    intro i hi
    rw [fpropAccum, dif_neg (by omega), strideSet_empty ni step i (by omega),
      Finset.sum_empty]
  | succ fuel ih =>
    intro i hi
    by_cases hlt : i < ni
    · rw [fpropAccum, dif_pos ⟨hlt, hstep⟩, ih (i + step) (by omega)]
      have hset : (Finset.range ni).filter (fun j => i ≤ j ∧ (j - i) % step = 0)
          = insert i ((Finset.range ni).filter
              (fun j => i + step ≤ j ∧ (j - (i + step)) % step = 0)) := by
        ext j
        simp only [Finset.mem_filter, Finset.mem_range, Finset.mem_insert]
        constructor
        · rintro ⟨hjni, hij, hmod⟩
          by_cases hji : j = i
          · exact Or.inl hji
          · right
            have hdvd : step ∣ (j - i) := Nat.dvd_of_mod_eq_zero hmod
            have hle : step ≤ j - i := Nat.le_of_dvd (by omega) hdvd
            refine ⟨hjni, by omega, ?_⟩
            have heq : j - (i + step) = j - i - step := by omega
            rw [heq]
            exact Nat.sub_mod_eq_zero_of_mod_eq (by rw [hmod, Nat.mod_self])
        · intro hc
          rcases hc with hji | ⟨hjni, hij, hmod⟩
          · subst hji
            exact ⟨hlt, le_refl _, by simp⟩
          · refine ⟨hjni, by omega, ?_⟩
            have heq : j - i = (j - (i + step)) + step := by omega
            rw [heq, Nat.add_mod_right]
            exact hmod
      rw [hset, Finset.sum_insert ?notmem]
      case notmem =>
        intro hmem
        simp only [Finset.mem_filter, Finset.mem_range] at hmem
        obtain ⟨-, h2, -⟩ := hmem
        omega
    · rw [fpropAccum, dif_neg (by omega), strideSet_empty ni step i (by omega),
        Finset.sum_empty]

/-- Helper: every live thread (tid < nt, no > 0) has a positive stride
o_threads, so its forward loop terminates. -/
lemma o_threads_pos (nt no tid : ℕ) (hno : 0 < no) (htid : tid < nt) :
    0 < o_threads nt no tid := by
  unfold o_threads min_threads left_over assignedOutput
  by_cases hcase : tid % no < nt % no
  · simp [hcase]
  · have hWno : no ≤ nt := by
      by_contra hc
      push_neg at hc
      have h1 : nt % no = nt := Nat.mod_eq_of_lt hc
      have h2 : tid % no = tid := Nat.mod_eq_of_lt (lt_trans htid hc)
      omega
    have hdiv : 0 < nt / no := Nat.div_pos hWno hno
    simp only [hcase, if_false]
    omega

/-- C6: for a layer of output width no and thread group of width W, thread
t = tid is assigned output o = tid mod no and sub-lane idx = tid / no; the
number of group threads sharing output o is min_threads + 1 when
o < left_over and min_threads otherwise; and the thread's forward loop
accumulates its partial dot product exactly over the input indices
idx, idx + o_threads, idx + 2 o_threads, ... below ni. -/
theorem thread_mapping_spec (W no tid ni : ℕ) (weight inval : ℕ → ℚ)
    (hno : 0 < no) (htid : tid < W) :
    assignedOutput tid no = tid % no
    ∧ subLaneIdx tid no = tid / no
    ∧ ((Finset.range W).filter
          (fun t => assignedOutput t no = assignedOutput tid no)).card
        = min_threads W no
          + (if assignedOutput tid no < left_over W no then 1 else 0)
    ∧ fpropAccum weight inval ni (o_threads W no tid) (subLaneIdx tid no)
        = ∑ i ∈ (Finset.range ni).filter
            (fun i => subLaneIdx tid no ≤ i
              ∧ (i - subLaneIdx tid no) % o_threads W no tid = 0),
            weight i * inval i := by
  refine ⟨rfl, rfl, ?_, ?_⟩
  · exact card_range_filter_mod no (tid % no) hno (Nat.mod_lt _ hno) W
  · exact fpropAccum_eq_sum weight inval ni (o_threads W no tid)
      (o_threads_pos W no tid hno htid) ni (subLaneIdx tid no) (by omega)

/-- C6 witness: W = 4 threads, no = 2 outputs, tid = 1, ni = 3 inputs;
thread 1 owns output 1, sub-lane 0, shares it with exactly 2 threads, and
its loop sums indices 0 and 2. -/
theorem thread_mapping_spec_witness :
    assignedOutput 1 2 = 1 % 2
    ∧ subLaneIdx 1 2 = 1 / 2
    ∧ ((Finset.range 4).filter
          (fun t => assignedOutput t 2 = assignedOutput 1 2)).card
        = min_threads 4 2 + (if assignedOutput 1 2 < left_over 4 2 then 1 else 0)
    ∧ fpropAccum (fun i => (i : ℚ)) (fun _ => 1) 3 (o_threads 4 2 1) (subLaneIdx 1 2)
        = ∑ i ∈ (Finset.range 3).filter
            (fun i => subLaneIdx 1 2 ≤ i ∧ (i - subLaneIdx 1 2) % o_threads 4 2 1 = 0),
            (i : ℚ) * 1 :=
  thread_mapping_spec 4 2 1 3 (fun i => (i : ℚ)) (fun _ => 1) (by decide) (by decide)

/-- Helper: two atomic fixed-point adds commute, whatever their targets. -/
lemma atomicAddQ_comm (quant : ℚ → ℤ) (acc : ℕ → ℤ) (p1 p2 : ℕ) (v1 v2 : ℚ) :
    atomicAddQ quant (atomicAddQ quant acc p1 v1) p2 v2
      = atomicAddQ quant (atomicAddQ quant acc p2 v2) p1 v1 := by
  funext p
  unfold atomicAddQ
  by_cases h12 : p2 = p1
  · subst h12
    by_cases hp : p = p2
    · simp [hp]
      ring
    · simp [hp]
  · by_cases hp2 : p = p2 <;> by_cases hp1 : p = p1 <;>
      simp [hp2, hp1, h12, Ne.symm h12]

/-- Helper: updateLoop is the fold of atomic adds over the visit order. -/
lemma updateLoop_eq_fold (quant : ℚ → ℤ) (w_stride tid ni startAt : ℕ)
    (tu : ℕ → ℚ) (acc : ℕ → ℤ) :
    updateLoop quant w_stride tid ni startAt tu acc
      = (visitOrder startAt ni).foldl
          (fun a i => atomicAddQ quant a (i * w_stride + tid) (tu i)) acc := by
  unfold updateLoop visitOrder
  rw [List.foldl_map]

/-- Helper: for startAt < ni the staggered loop's visit order is exactly the
rotation of [0, ..., ni-1] by startAt. -/
lemma visitOrder_eq_rotate (s ni : ℕ) (hs : s < ni) :
    visitOrder s ni = (List.range ni).rotate s := by
  apply List.ext_getElem
  · simp [visitOrder]
  · intro k h1 h2
    have hk : k < ni := by simpa [visitOrder] using h1
    rw [List.getElem_rotate]
    simp only [visitOrder, List.getElem_map, List.getElem_range, List.length_range]
    unfold realIndex
    by_cases hc : ni ≤ s + k
    · rw [if_pos hc, one_mul]
      have h3 : (k + s) % ni = (k + s - ni) % ni := Nat.mod_eq_sub_mod (by omega)
      rw [h3, Nat.mod_eq_of_lt (by omega)]
      omega
    · rw [if_neg hc, Nat.mod_eq_of_lt (by omega)]
      omega

/-- Helper: the staggered visit order is a permutation of [0, ..., ni-1]. -/
lemma visitOrder_perm (s ni : ℕ) (hs : s < ni) :
    (visitOrder s ni).Perm (List.range ni) := by
  rw [visitOrder_eq_rotate s ni hs]
  exact List.rotate_perm _ _

/-- C4: for any two group numbers, the staggered gradient-update loop with
start offset (block_num * thread_stride) mod ni visits every input index in
[0, ni) exactly once (its visit order is a permutation of [0, ..., ni-1]),
and the post-quantization accumulator contents after the loop are identical
whatever the group number: staggering changes only the write order. -/
theorem stagger_spec (block1 block2 ntib ni w_stride tid N : ℕ)
    (quant : ℚ → ℤ) (prev : ℕ → ℕ → ℚ) (ew : ℕ → ℚ) (lr : ℚ) (d : ℕ → ℚ)
    (acc : ℕ → ℤ) (hni : 0 < ni) :
    (visitOrder (start_at block1 ni ntib) ni).Perm (List.range ni)
    ∧ updateLoop quant w_stride tid ni (start_at block1 ni ntib)
        (fun i => total_update N (fun x => prev x i) (exampleK ew lr) d) acc
      = updateLoop quant w_stride tid ni (start_at block2 ni ntib)
        (fun i => total_update N (fun x => prev x i) (exampleK ew lr) d) acc := by
  have hs : ∀ b, start_at b ni ntib < ni := fun b => Nat.mod_lt _ hni
  set tu : ℕ → ℚ := fun i => total_update N (fun x => prev x i) (exampleK ew lr) d
  haveI : RightCommutative
      (fun (a : ℕ → ℤ) (i : ℕ) => atomicAddQ quant a (i * w_stride + tid) (tu i)) :=
    ⟨fun a i j =>
      atomicAddQ_comm quant a (i * w_stride + tid) (j * w_stride + tid) (tu i) (tu j)⟩
  refine ⟨visitOrder_perm _ _ (hs block1), ?_⟩
  rw [updateLoop_eq_fold, updateLoop_eq_fold]
  have hperm : (visitOrder (start_at block1 ni ntib) ni).Perm
      (visitOrder (start_at block2 ni ntib) ni) :=
    (visitOrder_perm _ _ (hs block1)).trans (visitOrder_perm _ _ (hs block2)).symm
  exact hperm.foldl_eq acc

/-- C4 witness: ni = 3 inputs, groups 0 and 1 with thread_stride 1, so start
offsets 0 and 1; the visit order covers [0, 3) once and both accumulator
results agree. -/
theorem stagger_spec_witness :
    (visitOrder (start_at 0 3 2) 3).Perm (List.range 3)
    ∧ updateLoop (fun v => v.num) 1 0 3 (start_at 0 3 2)
        (fun i => total_update 1 (fun _ => (i : ℚ)) (exampleK (fun _ => 1) 1)
          (fun _ => 1)) (fun _ => 0)
      = updateLoop (fun v => v.num) 1 0 3 (start_at 1 3 2)
        (fun i => total_update 1 (fun _ => (i : ℚ)) (exampleK (fun _ => 1) 1)
          (fun _ => 1)) (fun _ => 0) :=
  stagger_spec 0 1 2 3 1 0 1 (fun v => v.num) (fun _ i => (i : ℚ))
    (fun _ => 1) 1 (fun _ => 1) (fun _ => 0) (by decide)

end BackpropCuda
